import Mathlib

/-! Routing core of the HTTP server.

A shallow embedding of `pkg/http/server/server.go`: the two tables of `Server`,
the registrars `All`, `Get`, `Post`, `FileHandler`, the helper
`checkResourceEntry`, and `handleRequest`.

Everything `handleRequest` does to the outside world (the log line, opening,
reading and closing files, the calls on the response, the call of a handler)
is recorded, in order, as a list of `Event`s.

Conventions.
* A Go `string` is a Lean `String`; `strings.Index`, `strings.Contains`, `len`
  and slicing work on its characters. For text that is valid UTF-8 the
  substring relation and the text after an occurrence are the same whether
  positions count bytes or characters.
* A Go `map[string]V` is an association list with one entry per key
  (`GoMap`); `range` visits the entries in list order, which stands for the
  order the Go runtime happens to choose.
* A handler is a value of an arbitrary type `H`; calling it is the event
  `Event.Call`.
* `strings.ToUpper` maps each character through the Unicode table of the Go
  library. The table is a parameter (`CaseTable`) of `handleRequest`, and every
  theorem holds for every table that upper-cases ASCII the usual way, so for the
  one of the Go library too.
-/

namespace HttpServer

/-! ## Strings -/

/-- Position of the first occurrence of `substr` in a list of characters, `-1` when there is none. -/
def indexChars (substr : List Char) : List Char → Int
  | [] => if substr = [] then 0 else -1
  | c :: cs =>
    if substr.isPrefixOf (c :: cs) then 0
    else
      let i := indexChars substr cs
      if i < 0 then -1 else i + 1

/-- Go `strings.Index(s, substr)`. -/
def Index (s substr : String) : Int := indexChars substr.data s.data

/-- Go `strings.Contains(s, substr)`, which is `Index(s, substr) >= 0`. -/
def Contains (s substr : String) : Bool := decide (Index s substr ≥ 0)

/-- Go `len(s)`. -/
def len (s : String) : Int := s.data.length

/-- Go slice expression `s[n:]`, used by the source only with `0 ≤ n ≤ len(s)`. -/
def sliceFrom (s : String) (n : Int) : String := ⟨s.data.drop n.toNat⟩

/-- The rune mapping `unicode.ToUpper` of the Go library. Its Unicode table is not
part of the sources and is taken as a parameter; what is fixed of it is its action
on ASCII, where it maps the letters a to z to A to Z and keeps every other
character (`Char.toUpper`). Outside ASCII it may do anything, such as sending
U+017F to "S". -/
structure CaseTable where
  toUpper : Char → Char
  ascii : ∀ c : Char, c.toNat < 128 → toUpper c = Char.toUpper c

/-- Go `strings.ToUpper(s)`: every character replaced by its upper case. -/
def ToUpper (T : CaseTable) (s : String) : String := ⟨s.data.map T.toUpper⟩

/-! ## Maps -/

/-- Go `map[string]V`. -/
abbrev GoMap (V : Type) := List (String × V)

/-- Map read `m[key]` with the comma-ok result. -/
def GoMap.get {V : Type} : GoMap V → String → Option V
  | [], _ => none
  | (k, v) :: rest, key => if k = key then some v else GoMap.get rest key

/-- Map write `m[key] = val`. -/
def GoMap.set {V : Type} : GoMap V → String → V → GoMap V
  | [], key, val => [(key, val)]
  | (k, v) :: rest, key, val =>
    if k = key then (k, val) :: rest else (k, v) :: GoMap.set rest key val

/-- The keys a `range` loop visits. -/
def GoMap.keys {V : Type} (m : GoMap V) : List String := m.map Prod.fst

/-! ## Requests, responses, files -/

/-- One byte. -/
abbrev Byte := Fin 256

/-- Modelled from the spec: the type `http.Request` is not among the sources; the spec
gives a request a method, a path, a version, headers and a body, read through
`Method()`, `Path()` and `Version()`. -/
structure Request where
  method : String
  path : String
  version : String
  headers : List (String × String)
  body : List Byte
  deriving DecidableEq, Repr

/-- Modelled from the spec: the constants `http.NotFound` and `http.MethodNotAllowed` are
not among the sources; the spec names them the 404 and the 405 status. -/
inductive StatusCode where
  | NotFound
  | MethodNotAllowed
  deriving DecidableEq, Repr

/-- Modelled from the spec: numeric value of a status, 404 or 405. -/
def StatusCode.code : StatusCode → Nat
  | .NotFound => 404
  | .MethodNotAllowed => 405

/-- What `handleRequest` does, one event per call it makes. `Write` and
`WriteHeader` are the methods of `http.Response`, `Call` is the invocation of a
handler with the request and the response of the connection. -/
inductive Event (H : Type) where
  | Info (message : String)
  | Open (name : String)
  | Close (name : String)
  | Write (b : List Byte)
  | WriteHeader (code : StatusCode)
  | Call (handler : H) (request : Request)
  deriving DecidableEq, Repr

/-- An open file: the bytes not yet read, and whether the read after the last
of them fails (a directory, a device error) instead of reporting end of file. -/
structure File where
  unread : List Byte
  broken : Bool
  deriving DecidableEq, Repr

/-- The file system as `os.Open` sees it: `none` is an open error, which leaves
the nil handle in `f`. -/
abbrev FileSystem := String → Option File

/-- Error result of `Read`. -/
inductive ReadError where
  | EOF
  | invalid
  | failed
  deriving DecidableEq, Repr

/-- Result of `f.Read(buf)`: the bytes `buf[:n]`, the error, the handle afterwards. -/
structure ReadResult where
  data : List Byte
  err : Option ReadError
  file : Option File

/-- Go `(*os.File).Read` with a buffer of `bufLen` bytes. The nil handle reports
`ErrInvalid` and no bytes; a read of zero bytes is `io.EOF` unless the buffer is empty. -/
def File.Read (f : Option File) (bufLen : Nat) : ReadResult :=
  match f with
  | none => ⟨[], some .invalid, none⟩
  | some f =>
    if bufLen = 0 then ⟨[], none, some f⟩
    else if f.unread = [] then ⟨[], some (if f.broken then .failed else .EOF), some f⟩
    else ⟨f.unread.take bufLen, none, some { f with unread := f.unread.drop bufLen }⟩

/-- Number of bytes a handle still has to deliver. -/
def File.remaining : Option File → Nat
  | none => 0
  | some f => f.unread.length

/-- The read loop of `handleRequest`:
`for { n, err := f.Read(buf); if err != nil && err != io.EOF { Write([]byte{}) };
if n == 0 { break }; Write(buf[:n]) }`. -/
def readLoop {H : Type} (bufLen : Nat) (f : Option File) : List (Event H) :=
  let r := File.Read f bufLen
  let w : List (Event H) :=
    if r.err ≠ none ∧ r.err ≠ some ReadError.EOF then [Event.Write []] else []
  if h : r.data.length = 0 then w
  else w ++ Event.Write r.data :: readLoop bufLen r.file
termination_by File.remaining f
decreasing_by
  have h0 : ¬ (File.Read f bufLen).data.length = 0 := h
  cases f with
  | none => simp [File.Read] at h0
  | some f =>
    by_cases h1 : bufLen = 0
    · simp [File.Read, h1] at h0
    · by_cases h2 : f.unread = []
      · simp [File.Read, h1, h2] at h0
      · have h3 : 0 < f.unread.length := List.length_pos.mpr h2
        simp only [File.Read, h1, h2, if_false, File.remaining, List.length_drop]
        omega

/-! ## The server -/

/-- The `Server` struct. An inner map of `router` is `none` when it is the nil
map and `some m` once `make` has initialised it. -/
structure Server (H : Type) where
  port : Int
  router : GoMap (Option (GoMap H))
  fileHandler : GoMap String
  deriving DecidableEq, Repr

/-- `New(port)`. -/
def New {H : Type} (port : Int) : Server H :=
  { port := port, router := [], fileHandler := [] }

/-- Read `resource[method]` on an inner map; reading the nil map finds nothing. -/
def resourceGet {H : Type} (resource : Option (GoMap H)) (method : String) : Option H :=
  match resource with
  | none => none
  | some m => GoMap.get m method

/-- `checkResourceEntry(pattern)`. -/
def Server.checkResourceEntry {H : Type} (s : Server H) (pattern : String) : Server H :=
  match GoMap.get s.router pattern with
  | some _ => s
  | none => { s with router := GoMap.set s.router pattern (some []) }

/-- The statement `s.router[pattern][method] = handler`; `none` is the panic of a
write into the nil map. -/
def Server.assign {H : Type} (s : Server H) (pattern method : String) (handler : H) :
    Option (Server H) :=
  match GoMap.get s.router pattern with
  | some (some inner) =>
    some { s with router := GoMap.set s.router pattern (some (GoMap.set inner method handler)) }
  | _ => none

/-- `All(pattern, handler)`. -/
def Server.All {H : Type} (s : Server H) (pattern : String) (handler : H) : Option (Server H) :=
  (s.checkResourceEntry pattern).assign pattern "ALL" handler

/-- `Get(pattern, handler)`. -/
def Server.Get {H : Type} (s : Server H) (pattern : String) (handler : H) : Option (Server H) :=
  (s.checkResourceEntry pattern).assign pattern "GET" handler

/-- `Post(pattern, handler)`. -/
def Server.Post {H : Type} (s : Server H) (pattern : String) (handler : H) : Option (Server H) :=
  (s.checkResourceEntry pattern).assign pattern "POST" handler

/-- `FileHandler(pattern, directory)`. -/
def Server.FileHandler {H : Type} (s : Server H) (pattern directory : String) : Server H :=
  { s with fileHandler := GoMap.set s.fileHandler pattern directory }

/-- The file name the `range` loop of `handleRequest` computes for a key `k`:
`i := strings.Index(path, k); filePath := path[i+len(k):];
directoryPath := s.fileHandler[k]; fullPath := directoryPath + filePath`. -/
def Server.fullPath {H : Type} (s : Server H) (path k : String) : String :=
  let i := Index path k
  let filePath := sliceFrom path (i + len k)
  let directoryPath := (GoMap.get s.fileHandler k).getD ""
  directoryPath ++ filePath

/-- Body of the `range` loop of `handleRequest` for a key `k` that occurs in the
path: `os.Open(fullPath)`, the empty write after an open error, the read loop;
and the `Close` it defers. -/
def Server.serveFile {H : Type} (s : Server H) (fs : FileSystem) (path k : String) :
    List (Event H) × Event H :=
  let fullPath := s.fullPath path k
  let f := fs fullPath
  let w : List (Event H) := if f.isNone then [Event.Write []] else []
  (Event.Open fullPath :: (w ++ readLoop 1024 f), Event.Close fullPath)

/-- The loop `for k, _ := range s.fileHandler` of `handleRequest` over the keys
still to visit: the events produced and the deferred calls, last deferred first. -/
def Server.rangeFileHandler {H : Type} (s : Server H) (fs : FileSystem) (path : String) :
    List String → List (Event H) × List (Event H)
  | [] => ([], [])
  | k :: ks =>
    let rest := Server.rangeFileHandler s fs path ks
    if Contains path k then
      let one := s.serveFile fs path k
      (one.1 ++ rest.1, rest.2 ++ [one.2])
    else rest

/-- `handleRequest(request, response)`. -/
def Server.handleRequest {H : Type} (s : Server H) (T : CaseTable) (fs : FileSystem)
    (request : Request) :
    List (Event H) :=
  Event.Info (request.method ++ " " ++ request.path) ::
    if Contains request.path "." then
      let r := s.rangeFileHandler fs request.path (GoMap.keys s.fileHandler)
      r.1 ++ r.2
    else
      match GoMap.get s.router request.path with
      | none => [Event.WriteHeader StatusCode.NotFound]
      | some resource =>
        match resourceGet resource (ToUpper T request.method) with
        | none =>
          match resourceGet resource "ALL" with
          | some catchAll => [Event.Call catchAll request]
          | none => [Event.WriteHeader StatusCode.MethodNotAllowed]
        | some handler => [Event.Call handler request]


/-! ## Registration sequences -/

/-- One call of a registrar. -/
inductive Registration (H : Type) where
  | All (pattern : String) (handler : H)
  | Get (pattern : String) (handler : H)
  | Post (pattern : String) (handler : H)
  | FileHandler (pattern : String) (directory : String)
  deriving DecidableEq, Repr

/-- Perform one registrar call; `none` is a panic. -/
def Server.register {H : Type} (s : Server H) : Registration H → Option (Server H)
  | .All p h => s.All p h
  | .Get p h => s.Get p h
  | .Post p h => s.Post p h
  | .FileHandler p d => some (s.FileHandler p d)

/-- Perform registrar calls in order, starting from `s`. -/
def Server.registerAll {H : Type} (s : Server H) : List (Registration H) → Option (Server H)
  | [] => some s
  | r :: rs => (s.register r).bind (fun t => t.registerAll rs)

/-- The server state built from `New(port)` by a sequence of registrar calls. -/
def build {H : Type} (port : Int) (regs : List (Registration H)) : Option (Server H) :=
  (New port).registerAll regs

/-- The handler a registrar call stores for `(path, method)`, if it stores one there. -/
def Registration.handlerFor {H : Type} (r : Registration H) (path method : String) : Option H :=
  match r with
  | .All p h => if p = path ∧ method = "ALL" then some h else none
  | .Get p h => if p = path ∧ method = "GET" then some h else none
  | .Post p h => if p = path ∧ method = "POST" then some h else none
  | .FileHandler _ _ => none

/-- The route-table path a registrar call touches. -/
def Registration.routePattern {H : Type} : Registration H → Option String
  | .All p _ => some p
  | .Get p _ => some p
  | .Post p _ => some p
  | .FileHandler _ _ => none

/-- The handler of the last registration for `(path, method)` in a sequence of calls. -/
def lastRegistration {H : Type} : List (Registration H) → String → String → Option H
  | [], _, _ => none
  | r :: rs, path, method =>
    match lastRegistration rs path method with
    | some h => some h
    | none => r.handlerFor path method

/-- The handler the route table holds for `(path, method)`. -/
def Server.route {H : Type} (s : Server H) (path method : String) : Option H :=
  match GoMap.get s.router path with
  | none => none
  | some resource => resourceGet resource method

/-- No inner map of the route table is the nil map. -/
def Server.Initialised {H : Type} (s : Server H) : Prop :=
  ∀ p, GoMap.get s.router p ≠ some none

/-! ## Reading a trace -/

/-- The handler invocations of a trace, in order. -/
def calls {H : Type} (t : List (Event H)) : List (H × Request) :=
  t.filterMap fun e => match e with
    | .Call h r => some (h, r)
    | _ => none

/-- The statuses passed to `WriteHeader`, in order. -/
def statuses {H : Type} (t : List (Event H)) : List StatusCode :=
  t.filterMap fun e => match e with
    | .WriteHeader c => some c
    | _ => none

/-- The byte slices passed to `Write`, in order. -/
def writes {H : Type} (t : List (Event H)) : List (List Byte) :=
  t.filterMap fun e => match e with
    | .Write b => some b
    | _ => none

/-- The file names passed to `os.Open`, in order. -/
def opens {H : Type} (t : List (Event H)) : List String :=
  t.filterMap fun e => match e with
    | .Open n => some n
    | _ => none

/-! ## Example inputs -/

/-- A case table for the examples: ASCII, and the two letters U+017F and U+0131, which
the Go table sends to "S" and "I"; every other character is kept. -/
def exampleCase : CaseTable where
  toUpper c :=
    if c.toNat = 383 then 'S' else if c.toNat = 305 then 'I' else Char.toUpper c
  ascii c h := by
    have h1 : ¬ c.toNat = 383 := by omega
    have h2 : ¬ c.toNat = 305 := by omega
    simp only [h1, h2, if_false]

/-- A server with the file-serving table {"/static": "/srv/files"}. -/
def staticServer : Server Nat := (New 8080).FileHandler "/static" "/srv/files"

/-- A server with the file-serving table {"/static": "/srv/files", "/img": "/srv/img"}. -/
def twoPrefixServer : Server Nat :=
  ((New 8080).FileHandler "/static" "/srv/files").FileHandler "/img" "/srv/img"

/-- A file system whose only file is "/srv/files/a.txt", holding the two bytes "hi". -/
def smallFiles : FileSystem :=
  fun name => if name = "/srv/files/a.txt" then some ⟨[104, 105], false⟩ else none

/-- A file system whose only file is "/srv/files/a.txt", holding no bytes. -/
def emptyFile : FileSystem :=
  fun name => if name = "/srv/files/a.txt" then some ⟨[], false⟩ else none

/-- A file system whose only file is "/srv/img/logo.png", holding two bytes. -/
def imageFiles : FileSystem :=
  fun name => if name = "/srv/img/logo.png" then some ⟨[137, 80], false⟩ else none

/-- A file system in which no file can be opened. -/
def noFiles : FileSystem := fun _ => none

/-! ## Lemmas on strings -/

theorem indexChars_spec (sub : List Char) : ∀ s : List Char,
    (indexChars sub s = -1 ∧ ¬ sub <:+: s) ∨
    (∃ i : Nat, indexChars sub s = (i : Int) ∧ sub <+: s.drop i ∧
      ∀ j, j < i → ¬ sub <+: s.drop j)
  | [] => by
    by_cases h : sub = []
    · right
      exact ⟨0, by simp [indexChars, h], by simp [h], by simp⟩
    · left
      refine ⟨by simp [indexChars, h], fun hin => h (List.infix_nil.mp hin)⟩
  | c :: cs => by
    by_cases hp : sub.isPrefixOf (c :: cs) = true
    · right
      refine ⟨0, by simp [indexChars, hp], ?_, by simp⟩
      simpa using List.isPrefixOf_iff_prefix.mp hp
    · have hnp : ¬ sub <+: c :: cs := fun h => hp (List.isPrefixOf_iff_prefix.mpr h)
      rcases indexChars_spec sub cs with ⟨h1, h2⟩ | ⟨i, h1, h2, h3⟩
      · left
        refine ⟨by simp [indexChars, hp, h1], fun hin => ?_⟩
        rcases List.infix_cons_iff.mp hin with h | h
        · exact hnp h
        · exact h2 h
      · right
        refine ⟨i + 1, ?_, by simpa using h2, ?_⟩
        · have : ¬ ((i : Int) < 0) := by omega
          simp [indexChars, hp, h1, this]
        · intro j hj
          cases j with
          | zero => simpa using hnp
          | succ j => simpa using h3 j (by omega)

theorem ToUpper_ascii (T : CaseTable) (s : String) (h : ∀ c ∈ s.data, c.toNat < 128) :
    ToUpper T s = ⟨s.data.map Char.toUpper⟩ := by
  unfold ToUpper
  congr 1
  exact List.map_congr_left (fun c hc => T.ascii c (h c hc))

theorem ToUpper_GET (T : CaseTable) : ToUpper T "GET" = "GET" := by
  rw [ToUpper_ascii T "GET" (by decide)]
  decide

theorem ToUpper_POST (T : CaseTable) : ToUpper T "POST" = "POST" := by
  rw [ToUpper_ascii T "POST" (by decide)]
  decide

theorem Contains_iff (s sub : String) : Contains s sub = true ↔ sub.data <:+: s.data := by
  unfold Contains Index
  rcases indexChars_spec sub.data s.data with ⟨h1, h2⟩ | ⟨i, h1, h2, _⟩
  · simp [h1, h2]
  · have hin : sub.data <:+: s.data :=
      h2.isInfix.trans (List.drop_suffix i s.data).isInfix
    simp [h1, hin]

/-! ## Lemmas on maps -/

theorem GoMap.get_set {V : Type} (m : GoMap V) (k q : String) (v : V) :
    GoMap.get (GoMap.set m k v) q = if k = q then some v else GoMap.get m q := by
  induction m with
  | nil => simp [GoMap.set, GoMap.get]
  | cons e rest ih =>
    obtain ⟨a, b⟩ := e
    by_cases h1 : a = k
    · subst h1
      by_cases h2 : a = q <;> simp [GoMap.set, GoMap.get, h2]
    · by_cases h2 : a = q
      · subst h2
        simp [GoMap.set, GoMap.get, h1, Ne.symm h1]
      · simp [GoMap.set, GoMap.get, h1, h2, ih]

theorem GoMap.set_set {V : Type} (m : GoMap V) (k : String) (v w : V) :
    GoMap.set (GoMap.set m k v) k w = GoMap.set m k w := by
  induction m with
  | nil => simp [GoMap.set]
  | cons e rest ih =>
    obtain ⟨a, b⟩ := e
    by_cases h1 : a = k
    · simp [GoMap.set, h1]
    · simp [GoMap.set, h1, ih]

theorem GoMap.get_of_mem_keys {V : Type} (m : GoMap V) (k : String)
    (h : k ∈ GoMap.keys m) : ∃ v, GoMap.get m k = some v := by
  induction m with
  | nil => simp [GoMap.keys] at h
  | cons e rest ih =>
    obtain ⟨a, b⟩ := e
    by_cases h1 : a = k
    · exact ⟨b, by simp [GoMap.get, h1]⟩
    · have h2 : k ∈ GoMap.keys rest := by
        simp only [GoMap.keys, List.map_cons, List.mem_cons] at h
        rcases h with h | h
        · exact absurd h.symm h1
        · exact h
      obtain ⟨v, hv⟩ := ih h2
      exact ⟨v, by simp [GoMap.get, h1, hv]⟩

/-! ## Lemmas on the registrars -/

theorem Server.assign_checkResourceEntry {H : Type} (s : Server H) (hI : s.Initialised)
    (p M : String) (h : H) :
    ∃ t, (s.checkResourceEntry p).assign p M h = some t ∧ t.Initialised ∧
      (∀ q m, t.route q m = if p = q ∧ M = m then some h else s.route q m) ∧
      (∀ q, GoMap.get t.router q = none ↔ GoMap.get s.router q = none ∧ p ≠ q) ∧
      t.fileHandler = s.fileHandler ∧ t.port = s.port := by
  cases hg : GoMap.get s.router p with
  | none =>
    refine ⟨Server.mk s.port
      (GoMap.set (GoMap.set s.router p (some [])) p (some (GoMap.set [] M h))) s.fileHandler,
      ?_, ?_, ?_, ?_, rfl, rfl⟩
    · simp [Server.checkResourceEntry, Server.assign, hg, GoMap.get_set]
    · intro q
      by_cases hq : p = q
      · simp [GoMap.get_set, hq]
      · simpa [GoMap.get_set, hq] using hI q
    · intro q m
      by_cases hq : p = q
      · subst hq
        by_cases hm : M = m
        · simp [Server.route, GoMap.get_set, resourceGet, GoMap.set, GoMap.get, hm]
        · simp [Server.route, GoMap.get_set, resourceGet, GoMap.set, GoMap.get, hm, hg]
      · simp [Server.route, GoMap.get_set, hq]
    · intro q
      by_cases hq : p = q
      · simp [GoMap.get_set, hq]
      · simp [GoMap.get_set, hq]
  | some r =>
    cases r with
    | none => exact absurd hg (hI p)
    | some inner =>
      refine ⟨Server.mk s.port (GoMap.set s.router p (some (GoMap.set inner M h)))
        s.fileHandler, ?_, ?_, ?_, ?_, rfl, rfl⟩
      · simp [Server.checkResourceEntry, Server.assign, hg]
      · intro q
        by_cases hq : p = q
        · simp [GoMap.get_set, hq]
        · simpa [GoMap.get_set, hq] using hI q
      · intro q m
        by_cases hq : p = q
        · subst hq
          by_cases hm : M = m
          · simp [Server.route, GoMap.get_set, resourceGet, hm]
          · simp [Server.route, GoMap.get_set, resourceGet, hm, hg]
        · simp [Server.route, GoMap.get_set, hq]
      · intro q
        by_cases hq : p = q
        · subst hq
          simp [GoMap.get_set, hg]
        · simp [GoMap.get_set, hq]

theorem Server.register_spec {H : Type} (s : Server H) (hI : s.Initialised)
    (r : Registration H) :
    ∃ t, s.register r = some t ∧ t.Initialised ∧
      (∀ q m, t.route q m =
        match r.handlerFor q m with
        | some h => some h
        | none => s.route q m) ∧
      (∀ q, GoMap.get t.router q = none ↔
        GoMap.get s.router q = none ∧ r.routePattern ≠ some q) := by
  cases r with
  | All p h =>
    obtain ⟨t, h1, h2, h3, h4, _, _⟩ := s.assign_checkResourceEntry hI p "ALL" h
    refine ⟨t, h1, h2, fun q m => ?_, fun q => ?_⟩
    · rw [h3]
      by_cases hc : p = q ∧ "ALL" = m
      · obtain ⟨rfl, rfl⟩ := hc
        simp [Registration.handlerFor]
      · have hc2 : ¬ (p = q ∧ m = "ALL") := fun hx => hc ⟨hx.1, hx.2.symm⟩
        simp [Registration.handlerFor, hc, hc2]
    · simpa [Registration.routePattern] using h4 q
  | Get p h =>
    obtain ⟨t, h1, h2, h3, h4, _, _⟩ := s.assign_checkResourceEntry hI p "GET" h
    refine ⟨t, h1, h2, fun q m => ?_, fun q => ?_⟩
    · rw [h3]
      by_cases hc : p = q ∧ "GET" = m
      · obtain ⟨rfl, rfl⟩ := hc
        simp [Registration.handlerFor]
      · have hc2 : ¬ (p = q ∧ m = "GET") := fun hx => hc ⟨hx.1, hx.2.symm⟩
        simp [Registration.handlerFor, hc, hc2]
    · simpa [Registration.routePattern] using h4 q
  | Post p h =>
    obtain ⟨t, h1, h2, h3, h4, _, _⟩ := s.assign_checkResourceEntry hI p "POST" h
    refine ⟨t, h1, h2, fun q m => ?_, fun q => ?_⟩
    · rw [h3]
      by_cases hc : p = q ∧ "POST" = m
      · obtain ⟨rfl, rfl⟩ := hc
        simp [Registration.handlerFor]
      · have hc2 : ¬ (p = q ∧ m = "POST") := fun hx => hc ⟨hx.1, hx.2.symm⟩
        simp [Registration.handlerFor, hc, hc2]
    · simpa [Registration.routePattern] using h4 q
  | FileHandler p d =>
    refine ⟨s.FileHandler p d, rfl, hI, fun q m => ?_, fun q => ?_⟩
    · simp [Registration.handlerFor, Server.route, Server.FileHandler]
    · simp [Registration.routePattern, Server.FileHandler]

theorem Server.registerAll_spec {H : Type} (regs : List (Registration H)) :
    ∀ s : Server H, s.Initialised →
    ∃ t, s.registerAll regs = some t ∧ t.Initialised ∧
      (∀ q m, t.route q m =
        match lastRegistration regs q m with
        | some h => some h
        | none => s.route q m) ∧
      (∀ q, GoMap.get t.router q = none ↔
        GoMap.get s.router q = none ∧ ∀ r ∈ regs, r.routePattern ≠ some q) := by
  induction regs with
  | nil =>
    intro s hI
    exact ⟨s, rfl, hI, fun q m => by simp [lastRegistration], fun q => by simp⟩
  | cons r rs ih =>
    intro s hI
    obtain ⟨u, hu1, hu2, hu3, hu4⟩ := s.register_spec hI r
    obtain ⟨t, ht1, ht2, ht3, ht4⟩ := ih u hu2
    refine ⟨t, by simp [Server.registerAll, hu1, ht1], ht2, fun q m => ?_, fun q => ?_⟩
    · rw [ht3, hu3]
      simp only [lastRegistration]
      cases lastRegistration rs q m <;> rfl
    · rw [ht4, hu4]
      simp only [List.mem_cons, forall_eq_or_imp]
      tauto

theorem New_Initialised {H : Type} (port : Int) : (New port : Server H).Initialised := by
  intro p
  simp [New, GoMap.get]

theorem build_spec {H : Type} (port : Int) (regs : List (Registration H)) :
    ∃ t, build port regs = some t ∧ t.Initialised ∧
      (∀ q m, t.route q m = lastRegistration regs q m) ∧
      (∀ q, GoMap.get t.router q = none ↔ ∀ r ∈ regs, r.routePattern ≠ some q) := by
  obtain ⟨t, h1, h2, h3, h4⟩ := Server.registerAll_spec regs (New port) (New_Initialised port)
  refine ⟨t, h1, h2, fun q m => ?_, fun q => ?_⟩
  · rw [h3]
    cases lastRegistration regs q m <;> simp [Server.route, New, GoMap.get]
  · rw [h4]
    simp [New, GoMap.get]

theorem Server.assign_twice {H : Type} (s : Server H) (p M : String) (h1 h2 : H) :
    ((s.checkResourceEntry p).assign p M h1).bind
        (fun t => (t.checkResourceEntry p).assign p M h2) =
      (s.checkResourceEntry p).assign p M h2 := by
  cases hg : GoMap.get s.router p with
  | none =>
    simp [Server.checkResourceEntry, Server.assign, hg, GoMap.get_set, GoMap.set_set]
  | some r =>
    cases r with
    | none => simp [Server.checkResourceEntry, Server.assign, hg]
    | some inner =>
      simp [Server.checkResourceEntry, Server.assign, hg, GoMap.get_set, GoMap.set_set]

theorem Server.assign_fresh {H : Type} (s : Server H) (p M : String) (h : H)
    (hg : GoMap.get s.router p = none) :
    (s.checkResourceEntry p).assign p M h =
      some (Server.mk s.port (GoMap.set s.router p (some [(M, h)])) s.fileHandler) := by
  simp [Server.checkResourceEntry, Server.assign, hg, GoMap.get_set, GoMap.set_set, GoMap.set]

theorem Server.route_of_assign {H : Type} (s t : Server H) (p M : String) (h : H)
    (ht : (s.checkResourceEntry p).assign p M h = some t) : t.route p M = some h := by
  cases hg : GoMap.get s.router p with
  | none =>
    rw [Server.assign_fresh s p M h hg] at ht
    cases ht
    simp [Server.route, GoMap.get_set, resourceGet, GoMap.get]
  | some r =>
    cases r with
    | none => simp [Server.checkResourceEntry, Server.assign, hg] at ht
    | some inner =>
      simp only [Server.checkResourceEntry, Server.assign, hg, Option.some.injEq] at ht
      subst ht
      simp [Server.route, GoMap.get_set, resourceGet]

/-! ## Lemmas on `handleRequest`, route branch -/

theorem Server.handleRequest_route_some {H : Type} (T : CaseTable) (s : Server H) (fs : FileSystem)
    (request : Request) (h : H) (hdot : Contains request.path "." = false)
    (hr : s.route request.path (ToUpper T request.method) = some h) :
    s.handleRequest T fs request =
      [Event.Info (request.method ++ " " ++ request.path), Event.Call h request] := by
  unfold Server.route at hr
  cases hg : GoMap.get s.router request.path with
  | none => simp [hg] at hr
  | some resource =>
    simp only [hg] at hr
    simp [Server.handleRequest, hdot, hg, hr]

theorem Server.handleRequest_route_all {H : Type} (T : CaseTable) (s : Server H) (fs : FileSystem)
    (request : Request) (c : H) (hdot : Contains request.path "." = false)
    (hr : s.route request.path (ToUpper T request.method) = none)
    (hall : s.route request.path "ALL" = some c) :
    s.handleRequest T fs request =
      [Event.Info (request.method ++ " " ++ request.path), Event.Call c request] := by
  unfold Server.route at hr hall
  cases hg : GoMap.get s.router request.path with
  | none => simp [hg] at hall
  | some resource =>
    simp only [hg] at hr hall
    simp [Server.handleRequest, hdot, hg, hr, hall]

theorem Server.handleRequest_no_entry {H : Type} (T : CaseTable) (s : Server H) (fs : FileSystem)
    (request : Request) (hdot : Contains request.path "." = false)
    (hg : GoMap.get s.router request.path = none) :
    s.handleRequest T fs request =
      [Event.Info (request.method ++ " " ++ request.path),
        Event.WriteHeader StatusCode.NotFound] := by
  simp [Server.handleRequest, hdot, hg]

/-! ## Lemmas on the read loop -/

theorem readLoop_nil_handle {H : Type} (b : Nat) :
    (readLoop b none : List (Event H)) = [Event.Write []] := by
  rw [readLoop]
  simp [File.Read]

theorem readLoop_empty_buffer {H : Type} (f : File) :
    (readLoop 0 (some f) : List (Event H)) = [] := by
  rw [readLoop]
  simp [File.Read]

theorem readLoop_end {H : Type} (b : Nat) (hb : b ≠ 0) (broken : Bool) :
    (readLoop b (some ⟨[], broken⟩) : List (Event H)) =
      if broken then [Event.Write []] else [] := by
  rw [readLoop]
  cases broken <;> simp [File.Read, hb]

theorem readLoop_step {H : Type} (b : Nat) (hb : b ≠ 0) (u : List Byte) (hu : u ≠ [])
    (broken : Bool) :
    (readLoop b (some ⟨u, broken⟩) : List (Event H)) =
      Event.Write (u.take b) :: readLoop b (some ⟨u.drop b, broken⟩) := by
  rw [readLoop]
  simp [File.Read, hb, hu]

theorem readLoop_only_writes {H : Type} (b : Nat) :
    ∀ (n : Nat) (f : Option File), File.remaining f = n →
      ∀ e ∈ (readLoop b f : List (Event H)), ∃ x, e = Event.Write x := by
  intro n
  induction n using Nat.strong_induction_on with
  | _ n ih =>
    intro f hf e he
    cases f with
    | none =>
      rw [readLoop_nil_handle] at he
      exact ⟨[], by simpa using he⟩
    | some f =>
      obtain ⟨u, broken⟩ := f
      by_cases hb : b = 0
      · subst hb
        rw [readLoop_empty_buffer] at he
        simp at he
      · by_cases hu : u = []
        · subst hu
          rw [readLoop_end b hb] at he
          cases broken
          · simp at he
          · exact ⟨[], by simpa using he⟩
        · rw [readLoop_step b hb u hu] at he
          rcases List.mem_cons.mp he with h | h
          · exact ⟨_, h⟩
          · have hlt : File.remaining (some ⟨u.drop b, broken⟩) < n := by
              have : 0 < u.length := List.length_pos.mpr hu
              simp only [File.remaining, List.length_drop] at hf ⊢
              omega
            exact ih _ hlt _ rfl e h

theorem readLoop_regular {H : Type} :
    ∀ (n : Nat) (B : List Byte), B.length = n →
      (writes (readLoop 1024 (some ⟨B, false⟩) : List (Event H))).flatten = B ∧
      (∀ c ∈ writes (readLoop 1024 (some ⟨B, false⟩) : List (Event H)),
        0 < c.length ∧ c.length ≤ 1024) ∧
      (writes (readLoop 1024 (some ⟨B, false⟩) : List (Event H))).length =
        (n + 1023) / 1024 := by
  intro n
  induction n using Nat.strong_induction_on with
  | _ n ih =>
    intro B hB
    by_cases hu : B = []
    · subst hu
      subst hB
      rw [readLoop_end 1024 (by decide)]
      simp [writes]
    · have hpos : 0 < B.length := List.length_pos.mpr hu
      rw [readLoop_step 1024 (by decide) B hu]
      have hlt : (B.drop 1024).length < n := by
        simp only [List.length_drop]
        omega
      obtain ⟨h1, h2, h3⟩ := ih _ hlt (B.drop 1024) rfl
      have hw : writes (Event.Write (B.take 1024) ::
          (readLoop 1024 (some ⟨B.drop 1024, false⟩) : List (Event H))) =
          B.take 1024 :: writes (readLoop 1024 (some ⟨B.drop 1024, false⟩) : List (Event H)) := by
        simp [writes]
      rw [hw]
      refine ⟨?_, ?_, ?_⟩
      · rw [List.flatten_cons, h1, List.take_append_drop]
      · intro c hc
        rcases List.mem_cons.mp hc with h | h
        · subst h
          simp only [List.length_take]
          omega
        · exact h2 c h
      · rw [List.length_cons, h3, List.length_drop]
        omega

/-! ## Lemmas on `handleRequest`, file branch -/

theorem calls_readLoop {H : Type} (b : Nat) (f : Option File) :
    calls (readLoop b f : List (Event H)) = [] := by
  unfold calls
  rw [List.filterMap_eq_nil_iff]
  intro e he
  obtain ⟨x, rfl⟩ := readLoop_only_writes b _ f rfl e he
  rfl

theorem statuses_readLoop {H : Type} (b : Nat) (f : Option File) :
    statuses (readLoop b f : List (Event H)) = [] := by
  unfold statuses
  rw [List.filterMap_eq_nil_iff]
  intro e he
  obtain ⟨x, rfl⟩ := readLoop_only_writes b _ f rfl e he
  rfl

theorem opens_readLoop {H : Type} (b : Nat) (f : Option File) :
    opens (readLoop b f : List (Event H)) = [] := by
  unfold opens
  rw [List.filterMap_eq_nil_iff]
  intro e he
  obtain ⟨x, rfl⟩ := readLoop_only_writes b _ f rfl e he
  rfl

theorem Server.serveFile_trace {H : Type} (s : Server H) (fs : FileSystem) (path k : String) :
    calls (s.serveFile fs path k).1 = [] ∧ statuses (s.serveFile fs path k).1 = [] ∧
    opens (s.serveFile fs path k).1 = [s.fullPath path k] ∧
    writes (s.serveFile fs path k).1 =
      (if (fs (s.fullPath path k)).isNone then [[]] else []) ++
        writes (readLoop 1024 (fs (s.fullPath path k)) : List (Event H)) ∧
    (s.serveFile fs path k).2 = Event.Close (s.fullPath path k) := by
  refine ⟨?_, ?_, ?_, ?_, rfl⟩
  · have h := calls_readLoop (H := H) 1024 (fs (s.fullPath path k))
    unfold calls at h ⊢
    cases hf : fs (s.fullPath path k) <;>
      simp [Server.serveFile, hf, List.filterMap_cons, List.filterMap_append] <;>
      simpa [hf] using h
  · have h := statuses_readLoop (H := H) 1024 (fs (s.fullPath path k))
    unfold statuses at h ⊢
    cases hf : fs (s.fullPath path k) <;>
      simp [Server.serveFile, hf, List.filterMap_cons, List.filterMap_append] <;>
      simpa [hf] using h
  · have h := opens_readLoop (H := H) 1024 (fs (s.fullPath path k))
    unfold opens at h ⊢
    cases hf : fs (s.fullPath path k) <;>
      simp [Server.serveFile, hf, List.filterMap_cons, List.filterMap_append] <;>
      simpa [hf] using h
  · unfold writes
    cases hf : fs (s.fullPath path k) <;>
      simp [Server.serveFile, hf, List.filterMap_cons, List.filterMap_append]

theorem calls_append {H : Type} (a b : List (Event H)) : calls (a ++ b) = calls a ++ calls b := by
  simp [calls, List.filterMap_append]

theorem statuses_append {H : Type} (a b : List (Event H)) :
    statuses (a ++ b) = statuses a ++ statuses b := by
  simp [statuses, List.filterMap_append]

theorem writes_append {H : Type} (a b : List (Event H)) :
    writes (a ++ b) = writes a ++ writes b := by
  simp [writes, List.filterMap_append]

theorem opens_append {H : Type} (a b : List (Event H)) : opens (a ++ b) = opens a ++ opens b := by
  simp [opens, List.filterMap_append]

theorem Server.rangeFileHandler_deferred {H : Type} (s : Server H) (fs : FileSystem)
    (path : String) : ∀ keys : List String,
    calls (s.rangeFileHandler fs path keys).2 = [] ∧
    statuses (s.rangeFileHandler fs path keys).2 = [] ∧
    opens (s.rangeFileHandler fs path keys).2 = [] ∧
    writes (s.rangeFileHandler fs path keys).2 = []
  | [] => by simp [Server.rangeFileHandler, calls, statuses, opens, writes]
  | k :: ks => by
    obtain ⟨h1, h2, h3, h4⟩ := Server.rangeFileHandler_deferred s fs path ks
    by_cases hc : Contains path k = true
    · simp only [Server.rangeFileHandler, hc, if_true, calls_append, statuses_append,
        opens_append, writes_append, h1, h2, h3, h4, (s.serveFile_trace fs path k).2.2.2.2]
      simp [calls, statuses, opens, writes]
    · simp only [Server.rangeFileHandler, hc, if_false]
      exact ⟨h1, h2, h3, h4⟩

theorem Server.rangeFileHandler_events {H : Type} (s : Server H) (fs : FileSystem)
    (path : String) : ∀ keys : List String,
    calls (s.rangeFileHandler fs path keys).1 = [] ∧
    statuses (s.rangeFileHandler fs path keys).1 = [] ∧
    opens (s.rangeFileHandler fs path keys).1 =
      (keys.filter (fun k => Contains path k)).map (fun k => s.fullPath path k) ∧
    writes (s.rangeFileHandler fs path keys).1 =
      ((keys.filter (fun k => Contains path k)).map
        (fun k => writes (s.serveFile fs path k).1)).flatten
  | [] => by simp [Server.rangeFileHandler, calls, statuses, opens, writes]
  | k :: ks => by
    obtain ⟨h1, h2, h3, h4⟩ := Server.rangeFileHandler_events s fs path ks
    obtain ⟨g1, g2, g3, _, _⟩ := s.serveFile_trace fs path k
    by_cases hc : Contains path k = true
    · simp only [Server.rangeFileHandler, hc, if_true, calls_append, statuses_append,
        opens_append, writes_append, h1, h2, h3, h4, g1, g2, g3, List.filter_cons,
        List.map_cons, List.flatten_cons]
      simp
    · simp only [Server.rangeFileHandler, hc, if_false, List.filter_cons]
      exact ⟨h1, h2, h3, h4⟩

theorem Server.handleRequest_file {H : Type} (T : CaseTable) (s : Server H) (fs : FileSystem)
    (request : Request) (hdot : Contains request.path "." = true) :
    s.handleRequest T fs request =
      Event.Info (request.method ++ " " ++ request.path) ::
        ((s.rangeFileHandler fs request.path (GoMap.keys s.fileHandler)).1 ++
          (s.rangeFileHandler fs request.path (GoMap.keys s.fileHandler)).2) := by
  simp [Server.handleRequest, hdot]

theorem Server.handleRequest_file_trace {H : Type} (T : CaseTable) (s : Server H) (fs : FileSystem)
    (request : Request) (hdot : Contains request.path "." = true) :
    calls (s.handleRequest T fs request) = [] ∧
    statuses (s.handleRequest T fs request) = [] ∧
    opens (s.handleRequest T fs request) =
      ((GoMap.keys s.fileHandler).filter (fun k => Contains request.path k)).map
        (fun k => s.fullPath request.path k) ∧
    writes (s.handleRequest T fs request) =
      (((GoMap.keys s.fileHandler).filter (fun k => Contains request.path k)).map
        (fun k => writes (s.serveFile fs request.path k).1)).flatten := by
  obtain ⟨h1, h2, h3, h4⟩ :=
    s.rangeFileHandler_events fs request.path (GoMap.keys s.fileHandler)
  obtain ⟨d1, d2, d3, d4⟩ :=
    s.rangeFileHandler_deferred fs request.path (GoMap.keys s.fileHandler)
  rw [s.handleRequest_file T fs request hdot]
  refine ⟨?_, ?_, ?_, ?_⟩
  · have : ∀ t : List (Event H), calls (Event.Info (request.method ++ " " ++ request.path) :: t)
        = calls t := fun t => by simp [calls]
    rw [this, calls_append, h1, d1]
    rfl
  · have : ∀ t : List (Event H),
        statuses (Event.Info (request.method ++ " " ++ request.path) :: t) = statuses t :=
      fun t => by simp [statuses]
    rw [this, statuses_append, h2, d2]
    rfl
  · have : ∀ t : List (Event H), opens (Event.Info (request.method ++ " " ++ request.path) :: t)
        = opens t := fun t => by simp [opens]
    rw [this, opens_append, h3, d3, List.append_nil]
  · have : ∀ t : List (Event H), writes (Event.Info (request.method ++ " " ++ request.path) :: t)
        = writes t := fun t => by simp [writes]
    rw [this, writes_append, h4, d4, List.append_nil]

theorem flatten_map_pair_nil {α : Type} (l : List α) :
    (∀ w ∈ (l.map (fun _ => [([] : List Byte), []])).flatten, w = []) ∧
    (l.map (fun _ => [([] : List Byte), []])).flatten.length = 2 * l.length := by
  induction l with
  | nil => simp
  | cons a rest ih =>
    obtain ⟨h1, h2⟩ := ih
    refine ⟨fun w hw => ?_, ?_⟩
    · simp only [List.map_cons, List.flatten_cons, List.mem_append, List.mem_cons] at hw
      rcases hw with (h | h | h) | h
      · exact h
      · exact h
      · simp at h
      · exact h1 w h
    · simp only [List.map_cons, List.flatten_cons, List.length_append, List.length_cons,
        List.length_nil, h2]
      omega

theorem Server.rangeFileHandler_router {H : Type} (s : Server H) (router : GoMap (Option (GoMap H)))
    (fs : FileSystem) (path : String) : ∀ keys : List String,
    (Server.mk s.port router s.fileHandler).rangeFileHandler fs path keys =
      s.rangeFileHandler fs path keys
  | [] => rfl
  | k :: ks => by
    have ih := Server.rangeFileHandler_router s router fs path ks
    simp only [Server.rangeFileHandler, ih]
    rfl

theorem Server.handleRequest_route_trace {H : Type} (T : CaseTable) (s : Server H) (fs : FileSystem)
    (request : Request) (hdot : Contains request.path "." = false) :
    ∃ e, s.handleRequest T fs request =
        [Event.Info (request.method ++ " " ++ request.path), e] ∧
      (e = Event.WriteHeader StatusCode.NotFound ∨
        e = Event.WriteHeader StatusCode.MethodNotAllowed ∨
        ∃ h, e = Event.Call h request) := by
  cases hg : GoMap.get s.router request.path with
  | none => exact ⟨_, s.handleRequest_no_entry T fs request hdot hg, Or.inl rfl⟩
  | some resource =>
    cases hm : resourceGet resource (ToUpper T request.method) with
    | some h =>
      exact ⟨Event.Call h request, by simp [Server.handleRequest, hdot, hg, hm],
        Or.inr (Or.inr ⟨h, rfl⟩)⟩
    | none =>
      cases hall : resourceGet resource "ALL" with
      | some c =>
        exact ⟨Event.Call c request, by simp [Server.handleRequest, hdot, hg, hm, hall],
          Or.inr (Or.inr ⟨c, rfl⟩)⟩
      | none =>
        exact ⟨_, by simp [Server.handleRequest, hdot, hg, hm, hall], Or.inr (Or.inl rfl)⟩

/-! ## The claims -/

/-- C1, as stated, fails at a path with a "." in it: after `Get("/v1.0/users", h)`
the last registration for ("/v1.0/users", "GET") is `h`, yet `handleRequest` on
`GET /v1.0/users` only logs the request and invokes no handler. -/
theorem registered_dotted_path_not_routed :
    lastRegistration [Registration.Get "/v1.0/users" (1 : Nat)] "/v1.0/users" "GET" = some 1 ∧
    (build 8080 [Registration.Get "/v1.0/users" (1 : Nat)]).map
        (fun s => s.handleRequest exampleCase (fun _ => none)
          ⟨"GET", "/v1.0/users", "HTTP/1.1", [], []⟩) =
      some [Event.Info "GET /v1.0/users"] := by
  decide

/-- C1, amended: for every path `p` that contains no ".", every method `m` in
{GET, POST} and every handler `h`, any sequence of registrar calls from `New` whose
last registration for `(p, m)` is `h` builds a server state (no registrar panics),
and there `handleRequest` on a request with path `p` and method `m` logs the request
and then invokes `h` once with that request, and does nothing else: no other handler
(so no "ALL" handler of `p`) and no 404 or 405 status. -/
theorem handleRequest_registered_handler {H : Type} (T : CaseTable) (port : Int)
    (regs : List (Registration H)) (p m : String) (h : H) (fs : FileSystem)
    (request : Request)
    (hm : m = "GET" ∨ m = "POST")
    (hlast : lastRegistration regs p m = some h)
    (hdot : Contains p "." = false)
    (hpath : request.path = p) (hmethod : request.method = m) :
    ∃ s, build port regs = some s ∧
      s.handleRequest T fs request = [Event.Info (m ++ " " ++ p), Event.Call h request] := by
  obtain ⟨s, hb, _, hroute, _⟩ := build_spec port regs
  refine ⟨s, hb, ?_⟩
  have hup : ToUpper T request.method = m := by
    rw [hmethod]
    rcases hm with rfl | rfl
    · exact ToUpper_GET T
    · exact ToUpper_POST T
  have hr : s.route request.path (ToUpper T request.method) = some h := by
    rw [hup, hpath, hroute, hlast]
  have := s.handleRequest_route_some T fs request h (by rw [hpath]; exact hdot) hr
  rw [this, hpath, hmethod]

/-- C1, amended, at `All("/hello", 0); Get("/hello", 1); Get("/hello", 2)` and the
request `GET /hello`: handler 2 is invoked, and nothing else. -/
theorem handleRequest_registered_handler_witness :
    ("GET" = "GET" ∨ "GET" = "POST") ∧
    lastRegistration [Registration.All "/hello" (0 : Nat), Registration.Get "/hello" 1,
      Registration.Get "/hello" 2] "/hello" "GET" = some 2 ∧
    Contains "/hello" "." = false ∧
    ∃ s, build 8080 [Registration.All "/hello" (0 : Nat), Registration.Get "/hello" 1,
        Registration.Get "/hello" 2] = some s ∧
      s.handleRequest exampleCase (fun _ => none) ⟨"GET", "/hello", "HTTP/1.1", [], []⟩ =
        [Event.Info ("GET" ++ " " ++ "/hello"),
          Event.Call 2 ⟨"GET", "/hello", "HTTP/1.1", [], []⟩] :=
  ⟨Or.inl rfl, by decide, by decide,
    handleRequest_registered_handler exampleCase 8080 _ "/hello" "GET" 2 (fun _ => none)
      ⟨"GET", "/hello", "HTTP/1.1", [], []⟩ (Or.inl rfl) (by decide) (by decide) rfl rfl⟩

/-- C2, as stated, fails at a path with a "." in it: after `All("/v1.0/users", c)`
no method-specific handler is registered, yet `handleRequest` on
`DELETE /v1.0/users` only logs the request and never invokes `c`. -/
theorem catch_all_dotted_path_not_routed :
    lastRegistration [Registration.All "/v1.0/users" (7 : Nat)] "/v1.0/users" "ALL" = some 7 ∧
    lastRegistration [Registration.All "/v1.0/users" (7 : Nat)] "/v1.0/users"
      (ToUpper exampleCase "DELETE") = none ∧
    (build 8080 [Registration.All "/v1.0/users" (7 : Nat)]).map
        (fun s => s.handleRequest exampleCase (fun _ => none)
          ⟨"DELETE", "/v1.0/users", "HTTP/1.1", [], []⟩) =
      some [Event.Info "DELETE /v1.0/users"] := by
  decide

/-- C2, amended: for every case table and every path `p` that contains no "." and
whose last `All` registration is the catch-all handler `c`, in the state built from
`New` by the registrar calls: a request with path `p` whose upper-cased method has no handler
registered on `p` makes `handleRequest` log the request and invoke `c` once with
the request, and nothing else (no 405 status); a request whose upper-cased method
has the handler `h` registered on `p` makes it invoke `h` instead. -/
theorem handleRequest_catch_all {H : Type} (T : CaseTable) (port : Int) (regs : List (Registration H))
    (p : String) (c : H) (fs : FileSystem) (request : Request)
    (hall : lastRegistration regs p "ALL" = some c)
    (hdot : Contains p "." = false)
    (hpath : request.path = p) :
    ∃ s, build port regs = some s ∧
      (lastRegistration regs p (ToUpper T request.method) = none →
        s.handleRequest T fs request =
          [Event.Info (request.method ++ " " ++ p), Event.Call c request]) ∧
      (∀ h, lastRegistration regs p (ToUpper T request.method) = some h →
        s.handleRequest T fs request =
          [Event.Info (request.method ++ " " ++ p), Event.Call h request]) := by
  obtain ⟨s, hb, _, hroute, _⟩ := build_spec port regs
  subst hpath
  refine ⟨s, hb, fun hnone => ?_, fun h hsome => ?_⟩
  · exact s.handleRequest_route_all T fs request c hdot (by rw [hroute, hnone])
      (by rw [hroute, hall])
  · exact s.handleRequest_route_some T fs request h hdot (by rw [hroute, hsome])

/-- C2, amended, at `All("/hello", 7); Get("/hello", 1)`: `delete /hello` goes to the
catch-all handler 7. And at `Post("/hello", 3); All("/hello", 9)`, with a table that
sends U+017F to "S": `poſt /hello` has the upper case "POST" and goes to handler 3,
not to the catch-all. -/
theorem handleRequest_catch_all_witness :
    lastRegistration [Registration.All "/hello" (7 : Nat), Registration.Get "/hello" 1]
      "/hello" "ALL" = some 7 ∧
    Contains "/hello" "." = false ∧
    lastRegistration [Registration.All "/hello" (7 : Nat), Registration.Get "/hello" 1]
      "/hello" (ToUpper exampleCase "delete") = none ∧
    (∃ s, build 8080 [Registration.All "/hello" (7 : Nat), Registration.Get "/hello" 1] =
        some s ∧
      s.handleRequest exampleCase (fun _ => none) ⟨"delete", "/hello", "HTTP/1.1", [], []⟩ =
        [Event.Info ("delete" ++ " " ++ "/hello"),
          Event.Call 7 ⟨"delete", "/hello", "HTTP/1.1", [], []⟩]) ∧
    lastRegistration [Registration.Post "/hello" (3 : Nat), Registration.All "/hello" 9]
      "/hello" (ToUpper exampleCase "poſt") = some 3 ∧
    (∃ s, build 8080 [Registration.Post "/hello" (3 : Nat), Registration.All "/hello" 9] =
        some s ∧
      s.handleRequest exampleCase (fun _ => none) ⟨"poſt", "/hello", "HTTP/1.1", [], []⟩ =
        [Event.Info ("poſt" ++ " " ++ "/hello"),
          Event.Call 3 ⟨"poſt", "/hello", "HTTP/1.1", [], []⟩]) :=
  ⟨by decide, by decide, by decide,
    (handleRequest_catch_all exampleCase 8080
      [Registration.All "/hello" (7 : Nat), Registration.Get "/hello" 1] "/hello" 7
      (fun _ => none) ⟨"delete", "/hello", "HTTP/1.1", [], []⟩
      (by decide) (by decide) rfl).elim
      (fun s hs => ⟨s, hs.1, hs.2.1 (by decide)⟩),
    by decide,
    (handleRequest_catch_all exampleCase 8080
      [Registration.Post "/hello" (3 : Nat), Registration.All "/hello" 9] "/hello" 9
      (fun _ => none) ⟨"poſt", "/hello", "HTTP/1.1", [], []⟩
      (by decide) (by decide) rfl).elim
      (fun s hs => ⟨s, hs.1, hs.2.2 3 (by decide)⟩)⟩

/-- C3, as stated, fails at a path with a "." in it: in the state `New(8080)` the path
"/favicon.ico" is no key of the route table and no entry of the file-serving table
matches it, yet `handleRequest` only logs the request and writes no 404 status. -/
theorem unknown_dotted_path_no_status :
    GoMap.get (New 8080 : Server Nat).router "/favicon.ico" = none ∧
    (∀ k ∈ GoMap.keys (New 8080 : Server Nat).fileHandler,
      Contains "/favicon.ico" k = false) ∧
    (New 8080 : Server Nat).handleRequest exampleCase (fun _ => none)
        ⟨"GET", "/favicon.ico", "HTTP/1.1", [], []⟩ =
      [Event.Info "GET /favicon.ico"] := by
  decide

/-- C3, amended: for every server state and every request whose path contains no
"." and is not a key of the route table (whatever the file-serving table holds),
`handleRequest` logs the request, calls `WriteHeader` with the 404 status and does
nothing else, so it invokes no handler. Keys are compared by string equality: in
a state built from `New` by registrar calls none of which names exactly the
request path, the path is not a key, and the same holds. -/
theorem handleRequest_not_found {H : Type} (T : CaseTable) (fs : FileSystem) (request : Request)
    (hdot : Contains request.path "." = false) :
    (∀ s : Server H, GoMap.get s.router request.path = none →
      s.handleRequest T fs request =
        [Event.Info (request.method ++ " " ++ request.path),
          Event.WriteHeader StatusCode.NotFound]) ∧
    (∀ (port : Int) (regs : List (Registration H)),
      (∀ r ∈ regs, r.routePattern ≠ some request.path) →
      ∃ s, build port regs = some s ∧
        s.handleRequest T fs request =
          [Event.Info (request.method ++ " " ++ request.path),
            Event.WriteHeader StatusCode.NotFound]) := by
  refine ⟨fun s hg => s.handleRequest_no_entry T fs request hdot hg, fun port regs hr => ?_⟩
  obtain ⟨s, hb, _, _, hkeys⟩ := build_spec port regs
  exact ⟨s, hb, s.handleRequest_no_entry T fs request hdot ((hkeys _).mpr hr)⟩

/-- C3, amended, at `Get("/hello", 1)` and the request `GET /hello/`: the trailing "/"
makes the path a different one, and the answer is the 404 status. -/
theorem handleRequest_not_found_witness :
    Contains "/hello/" "." = false ∧
    (∀ r ∈ [Registration.Get "/hello" (1 : Nat)], r.routePattern ≠ some "/hello/") ∧
    ∃ s, build 8080 [Registration.Get "/hello" (1 : Nat)] = some s ∧
      s.handleRequest exampleCase (fun _ => none) ⟨"GET", "/hello/", "HTTP/1.1", [], []⟩ =
        [Event.Info ("GET" ++ " " ++ "/hello/"), Event.WriteHeader StatusCode.NotFound] :=
  ⟨by decide, by decide,
    (handleRequest_not_found (H := Nat) exampleCase (fun _ => none)
      ⟨"GET", "/hello/", "HTTP/1.1", [], []⟩ (by decide)).2 8080
      [Registration.Get "/hello" (1 : Nat)] (by decide)⟩

/-- C4, as stated, fails at a registered path with a "." in it: "/v1.0/users" is a key
of the route table with a handler for GET only and no "ALL" handler, yet
`handleRequest` on `POST /v1.0/users` only logs the request and writes no 405
status. -/
theorem registered_dotted_path_no_status :
    build 8080 [Registration.Get "/v1.0/users" (1 : Nat)] =
      some ⟨8080, [("/v1.0/users", some [("GET", 1)])], []⟩ ∧
    GoMap.get (⟨8080, [("/v1.0/users", some [("GET", 1)])], []⟩ : Server Nat).router
      "/v1.0/users" = some (some [("GET", 1)]) ∧
    resourceGet (some [("GET", (1 : Nat))]) (ToUpper exampleCase "POST") = none ∧
    resourceGet (some [("GET", (1 : Nat))]) "ALL" = none ∧
    (⟨8080, [("/v1.0/users", some [("GET", 1)])], []⟩ : Server Nat).handleRequest exampleCase
        (fun _ => none) ⟨"POST", "/v1.0/users", "HTTP/1.1", [], []⟩ =
      [Event.Info "POST /v1.0/users"] := by
  decide

/-- C4, amended: for every case table, every server state and every request whose path
contains no "." and is a key of the route table, whose upper-cased method has no handler in the
inner mapping of that path and for which that mapping has no "ALL" handler,
`handleRequest` logs the request, calls `WriteHeader` with the 405 status and does
nothing else, so it invokes no handler. The inner mapping may be empty or the nil
map. -/
theorem handleRequest_method_not_allowed {H : Type} (T : CaseTable) (s : Server H) (fs : FileSystem)
    (request : Request) (resource : Option (GoMap H))
    (hdot : Contains request.path "." = false)
    (hres : GoMap.get s.router request.path = some resource)
    (hm : resourceGet resource (ToUpper T request.method) = none)
    (hall : resourceGet resource "ALL" = none) :
    s.handleRequest T fs request =
      [Event.Info (request.method ++ " " ++ request.path),
        Event.WriteHeader StatusCode.MethodNotAllowed] := by
  simp [Server.handleRequest, hdot, hres, hm, hall]

/-- C4, amended, at a route table whose entry for "/hello" is the empty inner mapping,
and the request `GET /hello`. -/
theorem handleRequest_method_not_allowed_witness :
    Contains "/hello" "." = false ∧
    GoMap.get (⟨8080, [("/hello", some [])], []⟩ : Server Nat).router "/hello" =
      some (some []) ∧
    resourceGet (some ([] : GoMap Nat)) (ToUpper exampleCase "GET") = none ∧
    resourceGet (some ([] : GoMap Nat)) "ALL" = none ∧
    (⟨8080, [("/hello", some [])], []⟩ : Server Nat).handleRequest exampleCase (fun _ => none)
        ⟨"GET", "/hello", "HTTP/1.1", [], []⟩ =
      [Event.Info ("GET" ++ " " ++ "/hello"),
        Event.WriteHeader StatusCode.MethodNotAllowed] :=
  ⟨by decide, by decide, by decide, by decide,
    handleRequest_method_not_allowed exampleCase ⟨8080, [("/hello", some [])], []⟩ (fun _ => none)
      ⟨"GET", "/hello", "HTTP/1.1", [], []⟩ (some []) (by decide) (by decide) (by decide)
      (by decide)⟩

/-- C5, as stated, fails at the empty file: with the table {"/static": "/srv/files"}
and "/srv/files/a.txt" openable and holding no bytes, `handleRequest` on
`GET /static/a.txt` makes no `Write` call at all, so not "one or more chunks". -/
theorem empty_file_no_write :
    Contains "/static/a.txt" "." = true ∧
    emptyFile "/srv/files/a.txt" = some ⟨[], false⟩ ∧
    staticServer.handleRequest exampleCase emptyFile ⟨"GET", "/static/a.txt", "HTTP/1.1", [], []⟩ =
      [Event.Info "GET /static/a.txt", Event.Open "/srv/files/a.txt",
        Event.Close "/srv/files/a.txt"] ∧
    writes (staticServer.handleRequest exampleCase emptyFile
      ⟨"GET", "/static/a.txt", "HTTP/1.1", [], []⟩) = [] := by
  have h : staticServer.handleRequest exampleCase emptyFile ⟨"GET", "/static/a.txt", "HTTP/1.1", [], []⟩ =
      Event.Info "GET /static/a.txt" ::
        (((Event.Open "/srv/files/a.txt" :: readLoop 1024 (some ⟨[], false⟩)) ++ []) ++
          [Event.Close "/srv/files/a.txt"]) := by
    rfl
  rw [readLoop_end 1024 (by decide)] at h
  refine ⟨by decide, by decide, ?_, ?_⟩
  · rw [h]
    rfl
  · rw [h]
    rfl

/-- C5, amended: when the path contains ".", exactly one registered prefix `k` occurs
in it and the file resolved for `k` opens, holds the bytes `B` and is read without
error, the `Write` calls of `handleRequest` carry chunks that are each non-empty and
at most 1024 bytes long and whose concatenation in call order is `B`; there are
`⌈|B| / 1024⌉` of them, so none when `B` is empty and one per block when the length
is an exact multiple of 1024. No status is written and no handler invoked. -/
theorem handleRequest_streams_file {H : Type} (T : CaseTable) (s : Server H) (fs : FileSystem)
    (request : Request) (k : String) (B : List Byte)
    (hdot : Contains request.path "." = true)
    (hsingle : (GoMap.keys s.fileHandler).filter (fun q => Contains request.path q) = [k])
    (hopen : fs (s.fullPath request.path k) = some ⟨B, false⟩) :
    (writes (s.handleRequest T fs request)).flatten = B ∧
    (∀ c ∈ writes (s.handleRequest T fs request), 0 < c.length ∧ c.length ≤ 1024) ∧
    (writes (s.handleRequest T fs request)).length = (B.length + 1023) / 1024 ∧
    statuses (s.handleRequest T fs request) = [] ∧
    calls (s.handleRequest T fs request) = [] := by
  obtain ⟨h1, h2, _, h4⟩ := s.handleRequest_file_trace T fs request hdot
  obtain ⟨r1, r2, r3⟩ := readLoop_regular (H := H) B.length B rfl
  have hw : writes (s.handleRequest T fs request) =
      writes (readLoop 1024 (some ⟨B, false⟩) : List (Event H)) := by
    rw [h4, hsingle]
    simp [(s.serveFile_trace fs request.path k).2.2.2.1, hopen]
  rw [hw]
  exact ⟨r1, r2, r3, h2, h1⟩

/-- C5, amended, at the table {"/static": "/srv/files"}, the file "/srv/files/a.txt"
holding "hi" and the request `GET /static/a.txt`. -/
theorem handleRequest_streams_file_witness :
    Contains "/static/a.txt" "." = true ∧
    (GoMap.keys staticServer.fileHandler).filter (fun q => Contains "/static/a.txt" q) =
      ["/static"] ∧
    smallFiles (staticServer.fullPath "/static/a.txt" "/static") = some ⟨[104, 105], false⟩ ∧
    (writes (staticServer.handleRequest exampleCase smallFiles
      ⟨"GET", "/static/a.txt", "HTTP/1.1", [], []⟩)).flatten = [104, 105] :=
  ⟨by decide, by decide, by decide,
    (handleRequest_streams_file exampleCase staticServer smallFiles
      ⟨"GET", "/static/a.txt", "HTTP/1.1", [], []⟩ "/static" [104, 105]
      (by decide) (by decide) (by decide)).1⟩

/-- C6: for every request whose path contains ".", the file names `handleRequest`
passes to `os.Open` are, in table order, one per registered prefix `k` that occurs
somewhere in the path as a substring, and none for the other prefixes; the name for
`k` is the directory registered for `k` followed by the path after the first
occurrence of `k`, where the first occurrence starts at the least position at which
`k` is a prefix of the rest of the path. -/
theorem handleRequest_resolves_paths {H : Type} (T : CaseTable) (s : Server H) (fs : FileSystem)
    (request : Request) (hdot : Contains request.path "." = true) :
    ∃ first : String → Nat,
      (∀ k : String, k.data <:+: request.path.data →
        k.data <+: request.path.data.drop (first k) ∧
        ∀ j, j < first k → ¬ k.data <+: request.path.data.drop j) ∧
      opens (s.handleRequest T fs request) =
        ((GoMap.keys s.fileHandler).filter
            (fun k => decide (k.data <:+: request.path.data))).map
          (fun k => (GoMap.get s.fileHandler k).getD "" ++
            ⟨request.path.data.drop (first k + k.data.length)⟩) := by
  obtain ⟨_, _, h3, _⟩ := s.handleRequest_file_trace T fs request hdot
  refine ⟨fun k => (Index request.path k).toNat, fun k hk => ?_, ?_⟩
  · rcases indexChars_spec k.data request.path.data with ⟨_, h2⟩ | ⟨i, hi, hp, hmin⟩
    · exact absurd hk h2
    · have : (Index request.path k).toNat = i := by
        unfold Index
        rw [hi]
        rfl
      simp only [this]
      exact ⟨hp, hmin⟩
  · rw [h3]
    have hfilter : (fun k => Contains request.path k) =
        (fun k => decide (k.data <:+: request.path.data)) := by
      funext k
      by_cases hk : k.data <:+: request.path.data
      · simp [hk, (Contains_iff request.path k).mpr hk]
      · have : Contains request.path k = false := by
          cases hc : Contains request.path k
          · rfl
          · exact absurd ((Contains_iff request.path k).mp hc) hk
        simp [hk, this]
    rw [hfilter]
    apply List.map_congr_left
    intro k hk
    have hin : k.data <:+: request.path.data := by
      simpa using (List.mem_filter.mp hk).2
    rcases indexChars_spec k.data request.path.data with ⟨_, h2⟩ | ⟨i, hi, _, _⟩
    · exact absurd hin h2
    · have hidx : Index request.path k = (i : Int) := hi
      have hnat : ((i : Int) + (k.data.length : Int)).toNat = i + k.data.length := by
        omega
      simp only [Server.fullPath, sliceFrom, len, hidx, hnat, Int.toNat_ofNat]

/-- C6 at the table {"/static": "/srv/files"} and the path "/static/a.txt", which
resolves to "/srv/files/a.txt". -/
theorem handleRequest_resolves_paths_witness :
    Contains "/static/a.txt" "." = true ∧
    opens (staticServer.handleRequest exampleCase smallFiles
      ⟨"GET", "/static/a.txt", "HTTP/1.1", [], []⟩) = ["/srv/files/a.txt"] ∧
    ∃ first : String → Nat,
      (∀ k : String, k.data <:+: "/static/a.txt".data →
        k.data <+: "/static/a.txt".data.drop (first k) ∧
        ∀ j, j < first k → ¬ k.data <+: "/static/a.txt".data.drop j) ∧
      opens (staticServer.handleRequest exampleCase smallFiles
          ⟨"GET", "/static/a.txt", "HTTP/1.1", [], []⟩) =
        ((GoMap.keys staticServer.fileHandler).filter
            (fun k => decide (k.data <:+: "/static/a.txt".data))).map
          (fun k => (GoMap.get staticServer.fileHandler k).getD "" ++
            ⟨"/static/a.txt".data.drop (first k + k.data.length)⟩) :=
  ⟨by decide,
    ((Server.handleRequest_file_trace exampleCase staticServer smallFiles
      ⟨"GET", "/static/a.txt", "HTTP/1.1", [], []⟩ (by decide)).2.2.1).trans (by decide),
    handleRequest_resolves_paths exampleCase staticServer smallFiles
      ⟨"GET", "/static/a.txt", "HTTP/1.1", [], []⟩ (by decide)⟩

/-- C7, as stated, fails when a second registered prefix occurs in the path: with the
table {"/static": "/srv/files", "/img": "/srv/img"} the request
`GET /static/img/logo.png` is under the prefix "/static" and the file resolved for
it, "/srv/files/img/logo.png", cannot be opened; yet "/img" occurs in the path too,
"/srv/img/logo.png" opens, and `handleRequest` writes its two bytes. -/
theorem unopenable_file_second_prefix_served :
    Contains "/static/img/logo.png" "/static" = true ∧
    imageFiles (twoPrefixServer.fullPath "/static/img/logo.png" "/static") = none ∧
    twoPrefixServer.handleRequest exampleCase imageFiles
        ⟨"GET", "/static/img/logo.png", "HTTP/1.1", [], []⟩ =
      [Event.Info "GET /static/img/logo.png", Event.Open "/srv/files/img/logo.png",
        Event.Write [], Event.Write [], Event.Open "/srv/img/logo.png",
        Event.Write [137, 80], Event.Close "/srv/img/logo.png",
        Event.Close "/srv/files/img/logo.png"] ∧
    [137, 80] ∈ writes (twoPrefixServer.handleRequest exampleCase imageFiles
        ⟨"GET", "/static/img/logo.png", "HTTP/1.1", [], []⟩) := by
  have h : twoPrefixServer.handleRequest exampleCase imageFiles
        ⟨"GET", "/static/img/logo.png", "HTTP/1.1", [], []⟩ =
      Event.Info "GET /static/img/logo.png" ::
        (((Event.Open "/srv/files/img/logo.png" :: Event.Write [] :: readLoop 1024 none) ++
          ((Event.Open "/srv/img/logo.png" :: readLoop 1024 (some ⟨[137, 80], false⟩)) ++ [])) ++
          [Event.Close "/srv/img/logo.png", Event.Close "/srv/files/img/logo.png"]) := by
    rfl
  have ht : List.take 1024 [(137 : Byte), 80] = [137, 80] := by decide
  have hd : List.drop 1024 [(137 : Byte), 80] = [] := by decide
  rw [readLoop_nil_handle, readLoop_step 1024 (by decide) _ (by decide), ht, hd,
    readLoop_end 1024 (by decide)] at h
  refine ⟨by decide, by decide, ?_, ?_⟩
  · rw [h]
    rfl
  · rw [h]
    decide

/-- C7, amended: for every request whose path contains "." and for which no file
resolved from a registered prefix occurring in the path can be opened,
`handleRequest` returns (the read loop on the invalid handle ends after one read),
every `Write` call it makes carries zero bytes, there are two such calls for each
prefix that occurs in the path, it writes no status and invokes no handler. -/
theorem handleRequest_unopenable_file {H : Type} (T : CaseTable) (s : Server H) (fs : FileSystem)
    (request : Request)
    (hdot : Contains request.path "." = true)
    (hfail : ∀ k ∈ GoMap.keys s.fileHandler, Contains request.path k = true →
      fs (s.fullPath request.path k) = none) :
    (∀ w ∈ writes (s.handleRequest T fs request), w = []) ∧
    (writes (s.handleRequest T fs request)).length =
      2 * ((GoMap.keys s.fileHandler).filter (fun k => Contains request.path k)).length ∧
    statuses (s.handleRequest T fs request) = [] ∧
    calls (s.handleRequest T fs request) = [] := by
  obtain ⟨h1, h2, _, h4⟩ := s.handleRequest_file_trace T fs request hdot
  have hmap : ((GoMap.keys s.fileHandler).filter (fun k => Contains request.path k)).map
        (fun k => writes (s.serveFile fs request.path k).1) =
      ((GoMap.keys s.fileHandler).filter (fun k => Contains request.path k)).map
        (fun _ => [([] : List Byte), []]) := by
    apply List.map_congr_left
    intro k hk
    obtain ⟨hk1, hk2⟩ := List.mem_filter.mp hk
    have hnone := hfail k hk1 hk2
    rw [(s.serveFile_trace fs request.path k).2.2.2.1, hnone, readLoop_nil_handle]
    rfl
  rw [h4, hmap]
  obtain ⟨g1, g2⟩ := flatten_map_pair_nil
    ((GoMap.keys s.fileHandler).filter (fun k => Contains request.path k))
  exact ⟨g1, g2, h2, h1⟩

/-- C7, amended, at the table {"/static": "/srv/files"}, an empty file system and the
request `GET /static/missing.txt`: two empty writes. -/
theorem handleRequest_unopenable_file_witness :
    Contains "/static/missing.txt" "." = true ∧
    (∀ k ∈ GoMap.keys staticServer.fileHandler, Contains "/static/missing.txt" k = true →
      noFiles (staticServer.fullPath "/static/missing.txt" k) = none) ∧
    (∀ w ∈ writes (staticServer.handleRequest exampleCase noFiles
      ⟨"GET", "/static/missing.txt", "HTTP/1.1", [], []⟩), w = []) ∧
    (writes (staticServer.handleRequest exampleCase noFiles
      ⟨"GET", "/static/missing.txt", "HTTP/1.1", [], []⟩)).length =
      2 * ((GoMap.keys staticServer.fileHandler).filter
        (fun k => Contains "/static/missing.txt" k)).length :=
  ⟨by decide, fun _ _ _ => rfl,
    (handleRequest_unopenable_file exampleCase staticServer noFiles
      ⟨"GET", "/static/missing.txt", "HTTP/1.1", [], []⟩ (by decide)
      (fun _ _ _ => rfl)).1,
    (handleRequest_unopenable_file exampleCase staticServer noFiles
      ⟨"GET", "/static/missing.txt", "HTTP/1.1", [], []⟩ (by decide)
      (fun _ _ _ => rfl)).2.1⟩

/-- C8: for every case table, server state, file system and two requests with the same
path whose methods have the same upper-casing by `strings.ToUpper`, `handleRequest` reaches the same outcome: it
invokes the same handlers, writes the same statuses (404, 405 or none), makes the
same `Write` calls and opens the same files. -/
theorem handleRequest_method_case_insensitive {H : Type} (T : CaseTable) (s : Server H) (fs : FileSystem)
    (r1 r2 : Request)
    (hpath : r1.path = r2.path)
    (hmethod : ToUpper T r1.method = ToUpper T r2.method) :
    (calls (s.handleRequest T fs r1)).map Prod.fst =
      (calls (s.handleRequest T fs r2)).map Prod.fst ∧
    statuses (s.handleRequest T fs r1) = statuses (s.handleRequest T fs r2) ∧
    writes (s.handleRequest T fs r1) = writes (s.handleRequest T fs r2) ∧
    opens (s.handleRequest T fs r1) = opens (s.handleRequest T fs r2) := by
  cases hdot : Contains r1.path "." with
  | true =>
    obtain ⟨a1, a2, a3, a4⟩ := s.handleRequest_file_trace T fs r1 hdot
    obtain ⟨b1, b2, b3, b4⟩ := s.handleRequest_file_trace T fs r2 (by rw [← hpath]; exact hdot)
    rw [a1, a2, a3, a4, b1, b2, b3, b4, hpath]
    exact ⟨rfl, rfl, rfl, rfl⟩
  | false =>
    have hdot2 : Contains r2.path "." = false := by rw [← hpath]; exact hdot
    cases hg : GoMap.get s.router r2.path with
    | none =>
      simp [Server.handleRequest, hdot, hdot2, hpath, hmethod, hg, calls, statuses, writes,
        opens]
    | some resource =>
      cases hm : resourceGet resource (ToUpper T r2.method) with
      | some h =>
        simp [Server.handleRequest, hdot, hdot2, hpath, hmethod, hg, hm, calls, statuses,
          writes, opens]
      | none =>
        cases hall : resourceGet resource "ALL" <;>
          simp [Server.handleRequest, hdot, hdot2, hpath, hmethod, hg, hm, hall, calls,
            statuses, writes, opens]

/-- C8 at `Get("/hello", 1)`: the requests `get /hello` and `GET /hello` both invoke
handler 1; and at `Post("/hello", 3)`, with a table that sends U+017F to "S", the
request `poſt /hello` invokes handler 3 as `POST /hello` does. -/
theorem handleRequest_method_case_insensitive_witness :
    ToUpper exampleCase "get" = ToUpper exampleCase "GET" ∧
    (calls ((⟨8080, [("/hello", some [("GET", 1)])], []⟩ : Server Nat).handleRequest
        exampleCase noFiles ⟨"GET", "/hello", "HTTP/1.1", [], []⟩)).map Prod.fst = [1] ∧
    (calls ((⟨8080, [("/hello", some [("GET", 1)])], []⟩ : Server Nat).handleRequest
        exampleCase noFiles ⟨"get", "/hello", "HTTP/1.1", [], []⟩)).map Prod.fst =
      (calls ((⟨8080, [("/hello", some [("GET", 1)])], []⟩ : Server Nat).handleRequest
        exampleCase noFiles ⟨"GET", "/hello", "HTTP/1.1", [], []⟩)).map Prod.fst ∧
    ToUpper exampleCase "poſt" = ToUpper exampleCase "POST" ∧
    (calls ((⟨8080, [("/hello", some [("POST", 3)])], []⟩ : Server Nat).handleRequest
        exampleCase noFiles ⟨"POST", "/hello", "HTTP/1.1", [], []⟩)).map Prod.fst = [3] ∧
    (calls ((⟨8080, [("/hello", some [("POST", 3)])], []⟩ : Server Nat).handleRequest
        exampleCase noFiles ⟨"poſt", "/hello", "HTTP/1.1", [], []⟩)).map Prod.fst =
      (calls ((⟨8080, [("/hello", some [("POST", 3)])], []⟩ : Server Nat).handleRequest
        exampleCase noFiles ⟨"POST", "/hello", "HTTP/1.1", [], []⟩)).map Prod.fst :=
  ⟨by decide, by decide,
    (handleRequest_method_case_insensitive exampleCase
      ⟨8080, [("/hello", some [("GET", 1)])], []⟩ noFiles
      ⟨"get", "/hello", "HTTP/1.1", [], []⟩ ⟨"GET", "/hello", "HTTP/1.1", [], []⟩ rfl
      (by decide)).1,
    by decide, by decide,
    (handleRequest_method_case_insensitive exampleCase
      ⟨8080, [("/hello", some [("POST", 3)])], []⟩ noFiles
      ⟨"poſt", "/hello", "HTTP/1.1", [], []⟩ ⟨"POST", "/hello", "HTTP/1.1", [], []⟩ rfl
      (by decide)).1⟩

/-- C9: the registrars create lazily and the last registration wins. On a path that
is no key of the route table, `All`, `Get` and `Post` succeed and leave the path
with an inner mapping holding exactly the new handler; `FileHandler` stores the
directory under its prefix. Registering `h1` and then `h2` for the same path and
method leaves the state that registering `h2` alone leaves (so registering twice
the same value equals registering it once), the route table then holds `h2` for
that path and method, every request is handled as after registering `h2` alone,
and a GET or POST request on such a path without "." is dispatched to `h2`. Every
sequence of registrar calls from `New` succeeds and
leaves no path key with the nil map as its inner mapping. -/
theorem registrars_create_lazily_last_wins {H : Type} (T : CaseTable) (s : Server H) (p : String)
    (h1 h2 : H) (d1 d2 : String) :
    (GoMap.get s.router p = none →
      GoMap.get (s.checkResourceEntry p).router p = some (some []) ∧
      s.All p h1 = some ⟨s.port, GoMap.set s.router p (some [("ALL", h1)]), s.fileHandler⟩ ∧
      s.Get p h1 = some ⟨s.port, GoMap.set s.router p (some [("GET", h1)]), s.fileHandler⟩ ∧
      s.Post p h1 =
        some ⟨s.port, GoMap.set s.router p (some [("POST", h1)]), s.fileHandler⟩) ∧
    GoMap.get (s.FileHandler p d1).fileHandler p = some d1 ∧
    ((s.All p h1).bind (fun t => t.All p h2) = s.All p h2 ∧
      (s.Get p h1).bind (fun t => t.Get p h2) = s.Get p h2 ∧
      (s.Post p h1).bind (fun t => t.Post p h2) = s.Post p h2 ∧
      (s.FileHandler p d1).FileHandler p d2 = s.FileHandler p d2) ∧
    ((s.All p h1).bind (fun t => t.All p h1) = s.All p h1 ∧
      (s.Get p h1).bind (fun t => t.Get p h1) = s.Get p h1 ∧
      (s.Post p h1).bind (fun t => t.Post p h1) = s.Post p h1 ∧
      (s.FileHandler p d1).FileHandler p d1 = s.FileHandler p d1) ∧
    (∀ t, ((s.All p h1).bind (fun u => u.All p h2) = some t → t.route p "ALL" = some h2) ∧
      ((s.Get p h1).bind (fun u => u.Get p h2) = some t → t.route p "GET" = some h2) ∧
      ((s.Post p h1).bind (fun u => u.Post p h2) = some t → t.route p "POST" = some h2)) ∧
    (∀ t fs request, Contains p "." = false → request.path = p →
      (((s.Get p h1).bind (fun u => u.Get p h2) = some t ∧ ToUpper T request.method = "GET") ∨
        ((s.Post p h1).bind (fun u => u.Post p h2) = some t ∧
          ToUpper T request.method = "POST")) →
      t.handleRequest T fs request =
        [Event.Info (request.method ++ " " ++ p), Event.Call h2 request]) ∧
    (∀ fs request,
      ((s.All p h1).bind (fun u => u.All p h2)).map (fun t => t.handleRequest T fs request) =
        (s.All p h2).map (fun t => t.handleRequest T fs request) ∧
      ((s.Get p h1).bind (fun u => u.Get p h2)).map (fun t => t.handleRequest T fs request) =
        (s.Get p h2).map (fun t => t.handleRequest T fs request) ∧
      ((s.Post p h1).bind (fun u => u.Post p h2)).map (fun t => t.handleRequest T fs request) =
        (s.Post p h2).map (fun t => t.handleRequest T fs request)) ∧
    (∀ (port : Int) (regs : List (Registration H)),
      ∃ t, build port regs = some t ∧ ∀ q, GoMap.get t.router q ≠ some none) := by
  have hfile : ∀ a b : String, (s.FileHandler p a).FileHandler p b = s.FileHandler p b := by
    intro a b
    simp [Server.FileHandler, GoMap.set_set]
  refine ⟨fun hg => ⟨by simp [Server.checkResourceEntry, hg, GoMap.get_set],
      s.assign_fresh p "ALL" h1 hg, s.assign_fresh p "GET" h1 hg,
      s.assign_fresh p "POST" h1 hg⟩, ?_,
    ⟨s.assign_twice p "ALL" h1 h2, s.assign_twice p "GET" h1 h2,
      s.assign_twice p "POST" h1 h2, hfile d1 d2⟩,
    ⟨s.assign_twice p "ALL" h1 h1, s.assign_twice p "GET" h1 h1,
      s.assign_twice p "POST" h1 h1, hfile d1 d1⟩, ?_, ?_,
    fun fs request => ⟨congrArg _ (s.assign_twice p "ALL" h1 h2),
      congrArg _ (s.assign_twice p "GET" h1 h2), congrArg _ (s.assign_twice p "POST" h1 h2)⟩,
    ?_⟩
  · simp [Server.FileHandler, GoMap.get_set]
  · intro t
    refine ⟨fun ht => ?_, fun ht => ?_, fun ht => ?_⟩
    · rw [show (s.All p h1).bind (fun u => u.All p h2) = s.All p h2 from
        s.assign_twice p "ALL" h1 h2] at ht
      exact s.route_of_assign t p "ALL" h2 ht
    · rw [show (s.Get p h1).bind (fun u => u.Get p h2) = s.Get p h2 from
        s.assign_twice p "GET" h1 h2] at ht
      exact s.route_of_assign t p "GET" h2 ht
    · rw [show (s.Post p h1).bind (fun u => u.Post p h2) = s.Post p h2 from
        s.assign_twice p "POST" h1 h2] at ht
      exact s.route_of_assign t p "POST" h2 ht
  · intro t fs request hdot hpath hreg
    subst hpath
    rcases hreg with ⟨ht, hm⟩ | ⟨ht, hm⟩
    · rw [show (s.Get request.path h1).bind (fun u => u.Get request.path h2) =
        s.Get request.path h2 from s.assign_twice request.path "GET" h1 h2] at ht
      exact t.handleRequest_route_some T fs request h2 hdot
        (by rw [hm]; exact s.route_of_assign t request.path "GET" h2 ht)
    · rw [show (s.Post request.path h1).bind (fun u => u.Post request.path h2) =
        s.Post request.path h2 from s.assign_twice request.path "POST" h1 h2] at ht
      exact t.handleRequest_route_some T fs request h2 hdot
        (by rw [hm]; exact s.route_of_assign t request.path "POST" h2 ht)
  · intro port regs
    obtain ⟨t, hb, hI, _, _⟩ := build_spec port regs
    exact ⟨t, hb, hI⟩

/-- C9 at `New(8080)`, the path "/hello" and the handlers 1 and 2: `Get` creates the
entry, and `Get` with 1 followed by `Get` with 2 leaves what `Get` with 2 leaves. -/
theorem registrars_create_lazily_last_wins_witness :
    GoMap.get (New 8080 : Server Nat).router "/hello" = none ∧
    (New 8080 : Server Nat).Get "/hello" 1 =
      some ⟨8080, [("/hello", some [("GET", 1)])], []⟩ ∧
    ((New 8080 : Server Nat).Get "/hello" 1).bind (fun t => t.Get "/hello" 2) =
      some ⟨8080, [("/hello", some [("GET", 2)])], []⟩ :=
  ⟨by decide,
    ((registrars_create_lazily_last_wins exampleCase (New 8080 : Server Nat) "/hello" 1 2
      "/srv/a" "/srv/b").1 (by decide)).2.2.1,
    ((registrars_create_lazily_last_wins exampleCase (New 8080 : Server Nat) "/hello" 1 2
      "/srv/a" "/srv/b").2.2.1.2.1).trans (by decide)⟩

/-- C10: the "." test decides the branch before any table is read. For a request
whose path contains ".", the trace of `handleRequest` is the same whatever the route
table holds, no handler is invoked, no 404 or 405 status is written, and when no
registered file prefix occurs in the path nothing happens beyond the log line. For a
request whose path contains no ".", no file is opened, and the trace is the same
whatever the file-serving table and the file system hold. -/
theorem handleRequest_dot_heuristic {H : Type} (T : CaseTable) (s : Server H) (fs : FileSystem)
    (request : Request) :
    (Contains request.path "." = true →
      (∀ router, (Server.mk s.port router s.fileHandler).handleRequest T fs request =
        s.handleRequest T fs request) ∧
      calls (s.handleRequest T fs request) = [] ∧
      statuses (s.handleRequest T fs request) = [] ∧
      ((∀ k ∈ GoMap.keys s.fileHandler, Contains request.path k = false) →
        s.handleRequest T fs request =
          [Event.Info (request.method ++ " " ++ request.path)])) ∧
    (Contains request.path "." = false →
      opens (s.handleRequest T fs request) = [] ∧
      ∀ fileHandler fs2, (Server.mk s.port s.router fileHandler).handleRequest T fs2 request =
        s.handleRequest T fs request) := by
  refine ⟨fun hdot => ?_, fun hdot => ?_⟩
  · obtain ⟨h1, h2, _, _⟩ := s.handleRequest_file_trace T fs request hdot
    refine ⟨fun router => ?_, h1, h2, fun hno => ?_⟩
    · rw [Server.handleRequest_file T _ fs request hdot, s.handleRequest_file T fs request hdot]
      exact congrArg
        (fun r : List (Event H) × List (Event H) =>
          Event.Info (request.method ++ " " ++ request.path) :: (r.1 ++ r.2))
        (s.rangeFileHandler_router router fs request.path (GoMap.keys s.fileHandler))
    · rw [s.handleRequest_file T fs request hdot]
      have hnil : ∀ keys : List String, (∀ k ∈ keys, Contains request.path k = false) →
          s.rangeFileHandler fs request.path keys = ([], []) := by
        intro keys
        induction keys with
        | nil => intro _; rfl
        | cons k ks ih =>
          intro hk
          have hk1 : Contains request.path k = false := hk k (List.mem_cons_self k ks)
          have hk2 := ih (fun q hq => hk q (List.mem_cons_of_mem k hq))
          simp [Server.rangeFileHandler, hk1, hk2]
      rw [hnil _ hno]
      rfl
  · obtain ⟨e, he, hcases⟩ := s.handleRequest_route_trace T fs request hdot
    refine ⟨?_, fun fileHandler fs2 => ?_⟩
    · rw [he]
      rcases hcases with rfl | rfl | ⟨h, rfl⟩ <;> rfl
    · simp [Server.handleRequest, hdot]

/-- C10 at a state with the route "/v1.0/users" and no file prefix: the request
`GET /v1.0/users` only logs; and `GET /static/readme` opens no file although
"/static" is a registered file prefix. -/
theorem handleRequest_dot_heuristic_witness :
    Contains "/v1.0/users" "." = true ∧
    (∀ k ∈ GoMap.keys (⟨8080, [("/v1.0/users", some [("GET", 1)])], []⟩ :
      Server Nat).fileHandler, Contains "/v1.0/users" k = false) ∧
    (⟨8080, [("/v1.0/users", some [("GET", 1)])], []⟩ : Server Nat).handleRequest exampleCase smallFiles
        ⟨"GET", "/v1.0/users", "HTTP/1.1", [], []⟩ =
      [Event.Info ("GET" ++ " " ++ "/v1.0/users")] ∧
    Contains "/static/readme" "." = false ∧
    opens (staticServer.handleRequest exampleCase smallFiles
      ⟨"GET", "/static/readme", "HTTP/1.1", [], []⟩) = [] :=
  ⟨by decide, by decide,
    ((handleRequest_dot_heuristic exampleCase ⟨8080, [("/v1.0/users", some [("GET", 1)])], []⟩ smallFiles
      ⟨"GET", "/v1.0/users", "HTTP/1.1", [], []⟩).1 (by decide)).2.2.2 (by decide),
    by decide,
    ((handleRequest_dot_heuristic exampleCase staticServer smallFiles
      ⟨"GET", "/static/readme", "HTTP/1.1", [], []⟩).2 (by decide)).1⟩

end HttpServer
